import Mathlib

/-!
# Verification of `process_pressure_data.py`

A shallow embedding of the mars-rover data processor
(`src/process_pressure_data.py`) together with theorems settling the
frozen claims about its specification.

The embedding translates the Python source directly:
* Python strings are `String`; `str.strip()` becomes `pyStrip`,
  `str.strip('\n')` becomes `stripNL`, `str.split(sep)` becomes
  `splitPy` (splitting on every non-overlapping occurrence, left to
  right, exactly like Python's `str.split` with a non-empty separator).
* Python dicts are insertion-ordered association lists; assignment is
  `setKey` (update in place, keeping the position of an existing key,
  or append), lookup is `getKey`.
* Fallible operations (Python `IndexError` / `KeyError` / `TypeError` /
  `ValueError`) become `Except`.
* Python `float`/`int` conversion of decimal literals is modelled
  exactly as unreduced decimal fractions (`PyVal.pFloat num den` with
  `den` a power of ten) and integers.

All functions are structurally recursive so that every definition
evaluates on concrete input by `rfl`/`decide`.
-/

namespace RoverData

/-! ## Python string primitives -/

/-- The whitespace characters stripped by Python's `str.strip()`:
space, tab, newline, carriage return, vertical tab, form feed. -/
def isPySpace (c : Char) : Bool :=
  c == ' ' || c == '\t' || c == '\n' || c == '\r' || c.toNat == 11 || c.toNat == 12

/-- Python `s.strip()`: remove leading and trailing whitespace. -/
def pyStrip (s : String) : String :=
  ⟨((s.data.dropWhile isPySpace).reverse.dropWhile isPySpace).reverse⟩

/-- Python `s.strip('\n')`: remove leading and trailing newline characters. -/
def stripNL (s : String) : String :=
  ⟨((s.data.dropWhile (· == '\n')).reverse.dropWhile (· == '\n')).reverse⟩

/-- Does `pat` occur at the beginning of `cs`? -/
def beginsWith : List Char → List Char → Bool
  | [], _ => true
  | _ :: _, [] => false
  | p :: ps, c :: cs => p == c && beginsWith ps cs

/-- Python `s.startswith(pat)`. -/
def startsWithPy (pat s : String) : Bool :=
  beginsWith pat.data s.data

/-- Worker for `splitPy`, with explicit fuel so that the recursion is
structural (the fuel is always at least the length of the remaining
input, so the fuel-exhausted branch is never taken). -/
def splitPyAux (sep : List Char) : Nat → List Char → List Char → List (List Char)
  | 0, cs, acc => [acc.reverse ++ cs]
  | _ + 1, [], acc => [acc.reverse]
  | fuel + 1, c :: rest, acc =>
    if beginsWith sep (c :: rest) then
      acc.reverse :: splitPyAux sep fuel ((c :: rest).drop sep.length) []
    else
      splitPyAux sep fuel rest (c :: acc)

/-- Python `s.split(sep)` for a non-empty separator: split on every
non-overlapping occurrence of `sep`, left to right.  It always returns
at least one element; `"".split(sep) = [""]`. -/
def splitPy (sep s : String) : List String :=
  (splitPyAux sep.data s.data.length s.data []).map (fun cs => ⟨cs⟩)

/-! ## Dict operations (Python dicts as insertion-ordered assoc lists) -/

/-- Python `d[k]` lookup (first—and only, for well-formed dicts—entry). -/
def getKey {α : Type} : List (String × α) → String → Option α
  | [], _ => none
  | (k, v) :: rest, key => if k = key then some v else getKey rest key

/-- Python `d[k] = v`: overwrite in place (keeping the key's position)
or append a new entry. -/
def setKey {α : Type} : List (String × α) → String → α → List (String × α)
  | [], key, v => [(key, v)]
  | (k, w) :: rest, key, v =>
    if k = key then (key, v) :: rest else (k, w) :: setKey rest key v

/-- Python `{**a, **b}`: merge, entries of `b` overwriting entries of `a`. -/
def mergeDict {α : Type} (a b : List (String × α)) : List (String × α) :=
  b.foldl (fun m kv => setKey m kv.1 kv.2) a

/-! ## The structured-file parser (`parse_structured_file`, lines 34–128) -/

/-- A value in a parsed structured document: a scalar string, one
grouping-section mapping, or a list produced by duplicate-key
promotion (the first element of such a list may be any earlier value,
exactly as in the source). -/
inductive Value where
  | str : String → Value
  | obj : List (String × String) → Value
  | list : List Value → Value

/-- Failure conditions of the parser.  `malformedValueLine` models the
Python `IndexError` raised by `parsed_line[1]` on a separator-less line
inside a section and by `value[0]` on an empty value (the spec's
MalformedValueLine condition covers both: "a key/value line's value
side is empty or an index is out of range").  `missingEndToken` is the
spec's MissingEndToken condition; the source never raises it. -/
inductive ParseError where
  | malformedValueLine : ParseError
  | missingEndToken : ParseError
deriving DecidableEq

/-- `OBJ_TOKENS` from the source. -/
def OBJ_TOKENS : List String := ["OBJECT", "GROUP"]

/-- `MULTILINE_TOKENS` from the source: quote pair first, then
parenthesis pair. -/
def MULTILINE_TOKENS : List (Char × Char) := [('"', '"'), ('(', ')')]

/-- The `for begin_token, end_token in MULTILINE_TOKENS` loop (lines
89–95 and 116–123): given the first character, last character and
length of the (non-empty) value, return the closing token of the first
pair whose condition matches, if any. -/
def scanMultilineTokens : List (Char × Char) → Char → Char → Nat → Option Char
  | [], _, _, _ => none
  | (b, e) :: rest, c0, clast, len =>
    if c0 = b ∧ (clast ≠ e ∨ len = 1) then some e
    else scanMultilineTokens rest c0 clast len

/-- Runs the multiline-token scan on a value; `value[0]` on an empty
value raises `IndexError` (modelled as `malformedValueLine`). -/
def findMultilineToken (value : String) : Except ParseError (Option Char) :=
  match value.data with
  | [] => .error .malformedValueLine
  | c :: cs => .ok (scanMultilineTokens MULTILINE_TOKENS c ((c :: cs).getLastD c) (c :: cs).length)

/-- The parser's mutable state (the local variables of
`parse_structured_file`, lines 46–57).  The initial value of
`multiline_end_token` is irrelevant (Python uses `''`); we use `' '`. -/
structure PState where
  doc : List (String × Value)
  building_obj : Bool
  obj_token : String
  obj_key : String
  current_obj : List (String × String)
  in_multiline : Bool
  multiline_end_token : Char
  multiline_key : String
  multiline_value : String

/-- The parser state before the first line. -/
def initState : PState :=
  { doc := [], building_obj := false, obj_token := "", obj_key := "",
    current_obj := [], in_multiline := false, multiline_end_token := ' ',
    multiline_key := "", multiline_value := "" }

/-- One iteration of the `for line in f` loop (lines 59–126). -/
def stepLine (s : PState) (line : String) : Except ParseError PState :=
  let clean_line := pyStrip line
  if s.building_obj then
    if s.in_multiline then
      -- lines 63–69
      if clean_line ≠ "" then
        match (stripNL clean_line).data.getLast? with
        | none => .error .malformedValueLine
        | some c =>
          if s.multiline_end_token = c then
            .ok { s with in_multiline := false,
                         multiline_value := s.multiline_value ++ clean_line,
                         current_obj := setKey s.current_obj s.multiline_key
                           (s.multiline_value ++ clean_line) }
          else .ok { s with multiline_value := s.multiline_value ++ clean_line }
      else .ok { s with multiline_value := s.multiline_value ++ clean_line }
    else if startsWithPy ("END_" ++ s.obj_token) clean_line then
      -- lines 70–83: commit the finished section, with list promotion
      let doc' :=
        match getKey s.doc s.obj_key with
        | some (.list l) => setKey s.doc s.obj_key (.list (l ++ [.obj s.current_obj]))
        | some v => setKey s.doc s.obj_key (.list [v, .obj s.current_obj])
        | none => setKey s.doc s.obj_key (.obj s.current_obj)
      .ok { s with doc := doc', building_obj := false, obj_token := "", current_obj := [] }
    else
      -- lines 84–98: `parsed_line[1]` raises IndexError when the line
      -- has no ' = ' separator
      let parsed_line := splitPy " = " clean_line
      match parsed_line.get? 1 with
      | none => .error .malformedValueLine
      | some v1 =>
        let key := pyStrip (parsed_line.headD "")
        let value := pyStrip v1
        match findMultilineToken value with
        | .error e => .error e
        | .ok (some endTok) =>
          .ok { s with in_multiline := true, multiline_end_token := endTok,
                       multiline_key := key, multiline_value := value }
        | .ok none =>
          .ok { s with current_obj := setKey s.current_obj key (stripNL value) }
  else if s.in_multiline then
    -- lines 99–105
    if clean_line ≠ "" then
      match (stripNL clean_line).data.getLast? with
      | none => .error .malformedValueLine
      | some c =>
        if s.multiline_end_token = c then
          .ok { s with in_multiline := false,
                       multiline_value := s.multiline_value ++ clean_line,
                       doc := setKey s.doc s.multiline_key
                         (.str (s.multiline_value ++ clean_line)) }
        else .ok { s with multiline_value := s.multiline_value ++ clean_line }
    else .ok { s with multiline_value := s.multiline_value ++ clean_line }
  else if 2 ≤ (splitPy " = " clean_line).length then
    -- lines 106–126: `' = ' in clean_line`
    let parsed_line := splitPy " = " clean_line
    let key := pyStrip (parsed_line.headD "")
    let value := pyStrip ((parsed_line.get? 1).getD "")
    if key ∈ OBJ_TOKENS then
      .ok { s with building_obj := true, obj_token := key, obj_key := value }
    else
      match findMultilineToken value with
      | .error e => .error e
      | .ok (some endTok) =>
        .ok { s with in_multiline := true, multiline_end_token := endTok,
                     multiline_key := key, multiline_value := value }
      | .ok none =>
        .ok { s with doc := setKey s.doc key (.str (stripNL value)) }
  else
    -- unrecognized top-level lines are silently ignored
    .ok s

/-- `parse_structured_file`: run the state machine over the lines of
the file and return the top-level document.  Exactly as in the source,
the final state is not inspected: a section or multiline value still
open at end of input is silently discarded. -/
def parse_structured_file (lines : List String) : Except ParseError (List (String × Value)) :=
  match lines.foldlM stepLine initState with
  | .error e => .error e
  | .ok s => .ok s.doc

example : parse_structured_file ["A = 1", "B = 2"] =
    .ok [("A", .str "1"), ("B", .str "2")] := rfl

example : parse_structured_file ["OBJECT = COLUMN", "NAME = X", "END_OBJECT"] =
    .ok [("COLUMN", .obj [("NAME", "X")])] := rfl

example : parse_structured_file ["K = \"ab", "cd\""] =
    .ok [("K", .str "\"abcd\"")] := rfl

example : parse_structured_file ["OBJECT = C", "END_OBJECT", "OBJECT = C", "END_OBJECT"] =
    .ok [("C", .list [.obj [], .obj []])] := rfl

/-! ## The target-path extractor (`get_lbl_info`, lines 174–197)

`get_lbl_info` walks an arbitrarily nested dict, so the document type
here is the generic nested string dict that the Python code is
dynamically typed over.  The mutual inductives below are the nested
types `DocValue ≈ String ⊕ dict` and `Target ≈ key ⊕ dict of nested
specs`, unfolded so that all recursion is structural (and hence
kernel-evaluable). -/

mutual
/-- A value in a (possibly nested) parsed document. -/
inductive DocValue where
  | leaf : String → DocValue
  | node : DocDict → DocValue
/-- A nested document: an insertion-ordered string-keyed dict. -/
inductive DocDict where
  | nil : DocDict
  | cons : String → DocValue → DocDict → DocDict
end

mutual
/-- One element of a target spec: a plain key, or a mapping from keys
to nested specs (Python iterates `target.keys()` in insertion order,
so the mapping is an ordered list of pairs). -/
inductive Target where
  | plain : String → Target
  | nested : TargetPairs → Target
/-- The entries of one `dict`-shaped target element. -/
inductive TargetPairs where
  | nil : TargetPairs
  | cons : String → TargetList → TargetPairs → TargetPairs
/-- A target spec: an ordered list of target elements. -/
inductive TargetList where
  | nil : TargetList
  | cons : Target → TargetList → TargetList
end

/-- List-style append for target specs. -/
def TargetList.append : TargetList → TargetList → TargetList
  | .nil, ts => ts
  | .cons t rest, ts => .cons t (TargetList.append rest ts)

instance : Append TargetList := ⟨TargetList.append⟩

/-- Python `lbl_file_info[key]` lookup on a nested document. -/
def DocDict.getKey : DocDict → String → Option DocValue
  | .nil, _ => none
  | .cons k v rest, key => if k = key then some v else DocDict.getKey rest key

/-- Failure conditions of `get_lbl_info`: `keyNotFound` is a Python
`KeyError` from `lbl_file_info[...]` (the spec's KeyNotFound);
`notADict` is the Python `TypeError` raised when the recursive call
indexes a plain string with a string key. -/
inductive ExtractError where
  | keyNotFound : ExtractError
  | notADict : ExtractError
deriving DecidableEq

mutual
/-- The `for target in target_info` loop of `get_lbl_info` (lines
186–197), threading the `target_results` accumulator. -/
def get_lbl_info_go (doc : DocDict) (acc : List (String × DocValue)) :
    TargetList → Except ExtractError (List (String × DocValue))
  | .nil => .ok acc
  | .cons (.plain k) rest =>
    match doc.getKey k with
    | none => .error .keyNotFound
    | some v => get_lbl_info_go doc (setKey acc k v) rest
  | .cons (.nested pairs) rest =>
    match get_lbl_info_pairs doc acc pairs with
    | .error e => .error e
    | .ok acc' => get_lbl_info_go doc acc' rest

/-- The `for key in target.keys()` loop (lines 190–193): recursively
extract from `doc[key]` with the nested spec and merge the result into
the accumulator, later entries overwriting earlier ones. -/
def get_lbl_info_pairs (doc : DocDict) (acc : List (String × DocValue)) :
    TargetPairs → Except ExtractError (List (String × DocValue))
  | .nil => .ok acc
  | .cons k sub rest =>
    match doc.getKey k with
    | none => .error .keyNotFound
    | some (.leaf _) => .error .notADict
    | some (.node d) =>
      match get_lbl_info_go d [] sub with
      | .error e => .error e
      | .ok subRes => get_lbl_info_pairs doc (mergeDict acc subRes) rest
end

/-- `get_lbl_info(lbl_file_info, target_info)`: filter a parsed
document down to the targeted keys, flattened to one level. -/
def get_lbl_info (doc : DocDict) (targets : TargetList) :
    Except ExtractError (List (String × DocValue)) :=
  get_lbl_info_go doc [] targets

example :
    get_lbl_info
      (.cons "A" (.leaf "1") (.cons "G" (.node (.cons "B" (.leaf "2") .nil)) .nil))
      (.cons (.plain "A") (.cons (.nested (.cons "G" (.cons (.plain "B") .nil) .nil)) .nil)) =
    .ok [("A", .leaf "1"), ("B", .leaf "2")] := rfl

example :
    get_lbl_info (.cons "A" (.leaf "1") .nil) (.cons (.plain "Z") .nil) =
    .error .keyNotFound := rfl

/-! ## Column-value extraction (`extract_formatted_col_value`, lines 214–229) -/

/-- The two Python column types the source maps `DATA_TYPE` to
(`COL_DATA_TYPE_TO_PYTHON_TYPE`). -/
inductive PyType where
  | tFloat : PyType
  | tInt : PyType
deriving DecidableEq

/-- A formatted cell value: Python `None`, a float produced by
`float(...)` on a decimal literal (modelled exactly as the unreduced
fraction `num / den`, `den` a power of ten, so `pFloat 125 10` is
12.5), or an int produced by `int(...)`. -/
inductive PyVal where
  | pNone : PyVal
  | pFloat : Int → Nat → PyVal
  | pInt : Int → PyVal
deriving DecidableEq

/-- Failure conditions of row formatting: `indexError` is a Python
`IndexError` from `row[...]`, `valueError` a `ValueError` from
`float(...)`/`int(...)`. -/
inductive RunError where
  | indexError : RunError
  | valueError : RunError
deriving DecidableEq

/-- A `(COLUMN_NUMBER, NAME, python type)` tuple from `get_col_info`. -/
structure ColInfo where
  num : Int
  name : String
  ty : PyType
deriving DecidableEq

/-- Numeric value of a non-empty all-digit character list. -/
def digitsVal? (cs : List Char) : Option Nat :=
  if cs.isEmpty || !cs.all Char.isDigit then none
  else some (cs.foldl (fun n c => 10 * n + (c.toNat - 48)) 0)

/-- Split a character list at its first `'.'`, if any. -/
def splitDot : List Char → List Char × Option (List Char)
  | [] => ([], none)
  | c :: rest =>
    if c == '.' then ([], some rest)
    else
      let (a, b) := splitDot rest
      (c :: a, b)

/-- Python `int(s)` on an optionally signed decimal literal. -/
def pyInt? (s : String) : Option Int :=
  match s.data with
  | '-' :: r => (digitsVal? r).map (fun n => -(n : Int))
  | '+' :: r => (digitsVal? r).map (fun n => (n : Int))
  | r => (digitsVal? r).map (fun n => (n : Int))

/-- Python `float(s)` on an optionally signed plain decimal literal
(`d+`, `d+.d*` or `.d+`), returned as numerator and power-of-ten
denominator.  Other forms Python accepts (exponents, `inf`, …) do not
occur in this data and are out of scope. -/
def pyFloat? (s : String) : Option (Int × Nat) :=
  let (sg, cs) : Int × List Char :=
    match s.data with
    | '-' :: r => (-1, r)
    | '+' :: r => (1, r)
    | r => (1, r)
  match splitDot cs with
  | (ip, none) => (digitsVal? ip).map (fun n => (sg * (n : Int), 1))
  | (ip, some fp) =>
    if (ip.all Char.isDigit && fp.all Char.isDigit) && !(ip.isEmpty && fp.isEmpty) then
      some (sg * (((ip.foldl (fun n c => 10 * n + (c.toNat - 48)) 0) * 10 ^ fp.length
                   + fp.foldl (fun n c => 10 * n + (c.toNat - 48)) 0 : Nat) : Int),
            10 ^ fp.length)
    else none

/-- Applying the column's Python type to a raw cell
(`col_info_tuple[COL_TUPLE_TYPE_INDEX](raw_value)`). -/
def coerceValue (ty : PyType) (s : String) : Except RunError PyVal :=
  match ty with
  | .tFloat =>
    match pyFloat? s with
    | some (n, d) => .ok (.pFloat n d)
    | none => .error .valueError
  | .tInt =>
    match pyInt? s with
    | some z => .ok (.pInt z)
    | none => .error .valueError

/-- Python list indexing `l[i]` with negative-index wrap-around;
`none` models `IndexError`. -/
def pyIndex {α : Type} (l : List α) (i : Int) : Option α :=
  let j := if i < 0 then i + l.length else i
  if h : 0 ≤ j ∧ j < l.length then
    some (l.get ⟨j.toNat, by omega⟩)
  else none

/-- `extract_formatted_col_value(row, col_info_tuple)` (lines 214–229):
read the cell at the declared column number minus one, strip it, map
`'UNK'` to `None`, otherwise coerce to the declared type. -/
def extract_formatted_col_value (row : List String) (t : ColInfo) : Except RunError PyVal :=
  match pyIndex row (t.num - 1) with
  | none => .error .indexError
  | some cell =>
    let raw_value := pyStrip cell
    if raw_value = "UNK" then .ok .pNone
    else coerceValue t.ty raw_value

example :
    [⟨1, "A", .tFloat⟩, ⟨2, "B", .tInt⟩, ⟨3, "C", .tFloat⟩].map
      (extract_formatted_col_value ["12.5", "3", "UNK"]) =
    [.ok (.pFloat 125 10), .ok (.pInt 3), .ok .pNone] := rfl

/-! ## Row composition and the row-count limit
(`compose_custom_rows`, lines 232–267, and the `main` loop, lines 304–336) -/

/-- The formatting of one output row (lines 261–265): the formatted
target-column values followed by the label-info values. -/
def formatRow (cols : List ColInfo) (lblVals : List PyVal) (row : List String) :
    Except RunError (List PyVal) :=
  match cols.mapM (extract_formatted_col_value row) with
  | .error e => .error e
  | .ok vals => .ok (vals ++ lblVals)

/-- `compose_custom_rows` (lines 252–267): iterate the rows of one data
file; return early (writing nothing more) when the remaining row count
hits zero, decrement it only while it is positive, and emit one
formatted row per input row otherwise.  Returns the rows written and
the remaining count. -/
def compose_custom_rows (rows : List (List String)) (remaining_row_count : Int)
    (cols : List ColInfo) (lblVals : List PyVal) :
    Except RunError (List (List PyVal) × Int) :=
  match rows with
  | [] => .ok ([], remaining_row_count)
  | row :: rest =>
    if remaining_row_count = 0 then .ok ([], remaining_row_count)
    else
      let rrc := if remaining_row_count > 0 then remaining_row_count - 1
                 else remaining_row_count
      match formatRow cols lblVals row with
      | .error e => .error e
      | .ok out =>
        match compose_custom_rows rest rrc cols lblVals with
        | .error e => .error e
        | .ok (outs, rem) => .ok (out :: outs, rem)

/-- One tabular data file of the run: its rows and the label-info
values of its observation. -/
structure DataFile where
  rows : List (List String)
  lblVals : List PyVal

/-- The data-file loop of `main` (lines 304–336), restricted to row
emission: process the files in order through `compose_custom_rows`,
stopping as soon as the remaining row count reaches zero. -/
def processDataFiles (files : List DataFile) (remaining_row_count : Int)
    (cols : List ColInfo) :
    Except RunError (List (List PyVal) × Int) :=
  match files with
  | [] => .ok ([], remaining_row_count)
  | f :: rest =>
    match compose_custom_rows f.rows remaining_row_count cols f.lblVals with
    | .error e => .error e
    | .ok (outs, rem) =>
      if rem = 0 then .ok (outs, rem)
      else
        match processDataFiles rest rem cols with
        | .error e => .error e
        | .ok (outs2, rem2) => .ok (outs ++ outs2, rem2)

example :
    processDataFiles [⟨[["1"], ["2"]], []⟩, ⟨[["3"]], []⟩] (-1) [⟨1, "X", .tInt⟩] =
    .ok ([[.pInt 1], [.pInt 2], [.pInt 3]], -1) := rfl

example :
    processDataFiles [⟨[["1"], ["2"]], []⟩, ⟨[["3"]], []⟩] 0 [⟨1, "X", .tInt⟩] =
    .ok ([], 0) := rfl

/-! ## Helper lemmas -/

/-- A string with an empty character list is the empty string. -/
theorem eq_empty_of_data_eq_nil {s : String} (h : s.data = []) : s = "" := by
  cases s with
  | mk d => cases h; rfl

/-- Splitting a fold over appended line lists at the boundary. -/
theorem foldlM_stepLine_append (l1 l2 : List String) (s : PState) :
    (l1 ++ l2).foldlM stepLine s =
      (match l1.foldlM stepLine s with
       | .error e => .error e
       | .ok s1 => l2.foldlM stepLine s1) := by
  induction l1 generalizing s with
  | nil => rfl
  | cons a l ih =>
    simp only [List.cons_append, List.foldlM]
    cases h : stepLine s a with
    | error e => simp [h, Bind.bind, Except.bind]
    | ok s1 => simp [h, Bind.bind, Except.bind, ih]

/-- A failing step poisons the rest of the fold. -/
theorem foldlM_stepLine_cons_error (line : String) (rest : List String) (s : PState)
    (e : ParseError) (h : stepLine s line = .error e) :
    (line :: rest).foldlM stepLine s = .error e := by
  simp [List.foldlM, h, Bind.bind, Except.bind]

/-- Splitting a fold at the boundary when the first part succeeds. -/
theorem foldlM_stepLine_append_ok (l1 l2 : List String) (s1 : PState)
    (h : l1.foldlM stepLine initState = .ok s1) :
    (l1 ++ l2).foldlM stepLine initState = l2.foldlM stepLine s1 := by
  rw [foldlM_stepLine_append, h]

/-- The multiline-start rule as the spec words it: a multiline value
begins when the first non-whitespace character of the stripped value
is an opening delimiter (`"` or `(`) and the value does not already
end with the matching closing delimiter (or is exactly the one opening
character); the quote pair is checked before the parenthesis pair and
only the first matching pair is honored.  Returns the closing
delimiter to wait for. -/
def specMultilineEnd (value : String) : Option Char :=
  match value.data with
  | [] => none
  | c :: cs =>
    if c = '"' ∧ ((c :: cs).getLastD c ≠ '"' ∨ (c :: cs).length = 1) then some '"'
    else if c = '(' ∧ ((c :: cs).getLastD c ≠ ')' ∨ (c :: cs).length = 1) then some ')'
    else none

/-- On a non-empty value the source's token scan agrees with the
spec-side multiline-start rule. -/
theorem findMultilineToken_eq_spec (v : String) (hv : v.data ≠ []) :
    findMultilineToken v = .ok (specMultilineEnd v) := by
  unfold findMultilineToken specMultilineEnd
  cases h : v.data with
  | nil => exact absurd h hv
  | cons c cs => simp [scanMultilineTokens, MULTILINE_TOKENS]

/-! ## Claim C1 -/

/-- C1: the claim says `parse` fails with a MissingEndToken condition
when end of input is reached inside a grouping section or
mid-multiline.  The code does not: on both failing inputs below it
returns an empty document, silently dropping the partially built
section mapping `{A: 1}` (resp. the partially accumulated multiline
value `"abc`). -/
theorem parse_drops_unclosed_section_and_multiline :
    parse_structured_file ["OBJECT = FOO", "A = 1"] = .ok [] ∧
    parse_structured_file ["K = \"abc"] = .ok [] :=
  ⟨rfl, rfl⟩

/-! ## Claim C3 -/

/-- C3 (counterexample): on the line `A = B = C`, whose right-hand
side after the first separator is `B = C`, the parser commits the
value `B` — the segment between the first and second separator
occurrences — not the entire remaining right side `B = C`. -/
theorem parse_second_field_counterexample :
    parse_structured_file ["A = B = C"] = .ok [("A", .str "B")] ∧
    ("B" : String) ≠ "B = C" :=
  ⟨rfl, by decide⟩

/-- The top-level plain key/value step: when the split of the trimmed
line has at least two fields, the key (first field, trimmed) is not a
section token and the value (second field, trimmed) is non-empty and
does not start a multiline, the step commits `key ↦ value` into the
top-level document. -/
theorem stepLine_top_plain (s : PState) (line k v1 : String)
    (others : List String)
    (hb : s.building_obj = false) (hm : s.in_multiline = false)
    (hsplit : splitPy " = " (pyStrip line) = k :: v1 :: others)
    (hkey : pyStrip k ∉ OBJ_TOKENS)
    (hne : pyStrip v1 ≠ "")
    (hnm : specMultilineEnd (pyStrip v1) = none) :
    stepLine s line =
      .ok { s with doc := setKey s.doc (pyStrip k) (.str (stripNL (pyStrip v1))) } := by
  have hd : (pyStrip v1).data ≠ [] := fun h => hne (eq_empty_of_data_eq_nil h)
  have hft : findMultilineToken (pyStrip v1) = .ok none :=
    (findMultilineToken_eq_spec _ hd).trans (by rw [hnm])
  simp only [stepLine, hb, hm, hsplit, Bool.false_eq_true, if_false,
    List.length_cons, List.get?, List.headD, hft]
  simp [hkey]
  rw [hft]

/-- C3 (amended): a plain key/value line at top level is split on
every occurrence of the separator `" = "`; the key is the first field
(further trimmed) and the value is the *second* field (further
trimmed), i.e. the text strictly between the first and second
occurrences of the separator; everything after a second occurrence is
discarded. -/
theorem stepLine_value_is_second_field (s : PState) (line k v1 : String)
    (others : List String)
    (hb : s.building_obj = false) (hm : s.in_multiline = false)
    (hsplit : splitPy " = " (pyStrip line) = k :: v1 :: others)
    (hkey : pyStrip k ∉ OBJ_TOKENS)
    (hne : pyStrip v1 ≠ "")
    (hnm : specMultilineEnd (pyStrip v1) = none) :
    stepLine s line =
      .ok { s with doc := setKey s.doc (pyStrip k) (.str (stripNL (pyStrip v1))) } :=
  stepLine_top_plain s line k v1 others hb hm hsplit hkey hne hnm

/-- Witness for the amended C3 at the concrete counterexample line. -/
theorem stepLine_value_is_second_field_witness :
    stepLine initState "A = B = C" =
      .ok { initState with doc := [("A", Value.str "B")] } := by
  have h := stepLine_value_is_second_field initState "A = B = C" "A" "B" ["C"]
    rfl rfl (by decide) (by decide) (by decide) (by decide)
  exact h.trans (by rfl)

/-! ## Claim C4 -/

/-- C4 (counterexample): with the maximum-row-count option set to `0`
— a non-positive value the claim says means unlimited — the run over
one data file holding one row emits no rows at all (the sum below
shows the input had one row). -/
theorem max_rows_zero_counterexample :
    processDataFiles [⟨[["1.5"]], []⟩] 0 [⟨1, "P", .tFloat⟩] = .ok ([], 0) ∧
    (([⟨[["1.5"]], []⟩] : List DataFile).map (fun f => f.rows.length)).sum = 1 :=
  ⟨rfl, rfl⟩

/-- For a negative remaining count, `compose_custom_rows` emits one
output row per input row and leaves the count unchanged. -/
theorem compose_custom_rows_negative (rows : List (List String)) (m : Int)
    (cols : List ColInfo) (lblVals : List PyVal)
    (hm : m < 0)
    (hok : ∀ row ∈ rows, (formatRow cols lblVals row).isOk = true) :
    ∃ outs, compose_custom_rows rows m cols lblVals = .ok (outs, m) ∧
      outs.length = rows.length := by
  induction rows with
  | nil => exact ⟨[], rfl, rfl⟩
  | cons row rest ih =>
    obtain ⟨outs, hrec, hlen⟩ := ih (fun r hr => hok r (List.mem_cons_of_mem _ hr))
    have h0 : ¬(m = 0) := by omega
    have h1 : ¬(m > 0) := by omega
    have hfmt := hok row (List.mem_cons_self _ _)
    cases hf : formatRow cols lblVals row with
    | error e => rw [hf] at hfmt; simp [Except.isOk, Except.toBool] at hfmt
    | ok out =>
      refine ⟨out :: outs, ?_, by simp [hlen]⟩
      simp only [compose_custom_rows, h0, if_false, h1, if_neg h1, hf]
      simp [hrec]

/-- C4 (amended): for every *negative* value of the maximum-row-count
option the limit is unlimited — the run emits one output row for every
row of every data file and never stops early (a value of `0` instead
stops the run before any data row is emitted, see the
counterexample). -/
theorem processDataFiles_negative_unlimited (files : List DataFile) (m : Int)
    (cols : List ColInfo)
    (hm : m < 0)
    (hok : ∀ f ∈ files, ∀ row ∈ f.rows, (formatRow cols f.lblVals row).isOk = true) :
    ∃ outs, processDataFiles files m cols = .ok (outs, m) ∧
      outs.length = (files.map (fun f => f.rows.length)).sum := by
  induction files with
  | nil => exact ⟨[], rfl, rfl⟩
  | cons f rest ih =>
    obtain ⟨outs2, hrec, hlen2⟩ := ih (fun g hg => hok g (List.mem_cons_of_mem _ hg))
    obtain ⟨outs1, hcmp, hlen1⟩ :=
      compose_custom_rows_negative f.rows m cols f.lblVals hm
        (hok f (List.mem_cons_self _ _))
    have h0 : ¬(m = 0) := by omega
    refine ⟨outs1 ++ outs2, ?_, by simp [hlen1, hlen2]⟩
    simp only [processDataFiles, hcmp, h0, if_false, hrec, if_neg h0]

/-- Witness for the amended C4: a two-file run (one row, then two
rows) with limit `-1` emits all three rows. -/
theorem processDataFiles_negative_unlimited_witness :
    ∃ outs, processDataFiles [⟨[["2"]], []⟩, ⟨[["3"], ["4"]], []⟩] (-1) [⟨1, "X", .tInt⟩] =
      .ok (outs, -1) ∧
      outs.length = (([⟨[["2"]], []⟩, ⟨[["3"], ["4"]], []⟩] : List DataFile).map
        (fun f => f.rows.length)).sum :=
  processDataFiles_negative_unlimited _ _ _ (by decide) (by decide)

/-! ## Claim C2 -/

/-- C2: whenever a line routed to plain key/value handling has an
empty (after trimming) second split field — the parsed value — the
parser fails with the MalformedValueLine condition (the `IndexError`
of `value[0]`), at top level (`htop`) and inside a grouping section
(`hsec`) alike; the error aborts the whole parse, so the line is not
silently ignored. -/
theorem parse_empty_value_malformed (pre : List String) (s : PState)
    (line k v1 : String) (others rest : List String)
    (hpre : pre.foldlM stepLine initState = .ok s)
    (hm : s.in_multiline = false)
    (hsplit : splitPy " = " (pyStrip line) = k :: v1 :: others)
    (hempty : pyStrip v1 = "")
    (hsec : s.building_obj = true →
      startsWithPy ("END_" ++ s.obj_token) (pyStrip line) = false)
    (htop : s.building_obj = false → pyStrip k ∉ OBJ_TOKENS) :
    parse_structured_file (pre ++ line :: rest) = .error .malformedValueLine := by
  have hstep : stepLine s line = .error .malformedValueLine := by
    cases hb : s.building_obj with
    | false =>
      simp only [stepLine, hb, hm, hsplit, Bool.false_eq_true, if_false,
        List.length_cons, List.get?, List.headD, Option.getD_some, hempty]
      rw [if_pos (by omega : 2 ≤ others.length + 1 + 1), if_neg (htop hb)]
      rfl
    | true =>
      have hend : ¬(startsWithPy ("END_" ++ s.obj_token) (pyStrip line) = true) := by
        simp [hsec hb]
      simp only [stepLine, hb, hm, hsplit, Bool.false_eq_true, if_false, if_true,
        hend, List.get?, List.headD, Option.getD_some, hempty]
      rfl
  unfold parse_structured_file
  rw [foldlM_stepLine_append_ok pre (line :: rest) s hpre,
    foldlM_stepLine_cons_error line rest s _ hstep]

/-- Witness for C2 at the top level: on `A =  = B` the second split
field is empty, so the parse fails. -/
theorem parse_empty_value_malformed_witness :
    parse_structured_file ["A =  = B"] = .error .malformedValueLine :=
  parse_empty_value_malformed [] initState "A =  = B" "A" "" ["B"] []
    rfl rfl (by decide) rfl (fun h => nomatch h) (fun _ => by decide)

/-! ## Claim C10 -/

/-- C10: while inside an open grouping section (and not
mid-multiline), any line that neither starts with `END_` plus the open
section token nor contains the separator `' = '` — blank lines
included — makes the parse fail with the index-out-of-range condition
(`parsed_line[1]`, part of the spec's MalformedValueLine taxonomy);
whereas at top level the very same separator-less lines are silently
ignored, leaving the state unchanged. -/
theorem section_unrecognized_line_fails_top_ignored (pre : List String) (s : PState) :
    (∀ line rest,
      pre.foldlM stepLine initState = .ok s →
      s.building_obj = true → s.in_multiline = false →
      startsWithPy ("END_" ++ s.obj_token) (pyStrip line) = false →
      (splitPy " = " (pyStrip line)).length < 2 →
      parse_structured_file (pre ++ line :: rest) = .error .malformedValueLine) ∧
    (∀ line,
      s.building_obj = false → s.in_multiline = false →
      (splitPy " = " (pyStrip line)).length < 2 →
      stepLine s line = .ok s) := by
  constructor
  · intro line rest hpre hb hm hend hlen
    have hnone : (splitPy " = " (pyStrip line)).get? 1 = none := by
      rw [List.get?_eq_none]; omega
    have hstep : stepLine s line = .error .malformedValueLine := by
      simp only [stepLine, hb, hm, hend, Bool.false_eq_true, if_false, if_true, hnone]
    unfold parse_structured_file
    rw [foldlM_stepLine_append_ok pre (line :: rest) s hpre,
      foldlM_stepLine_cons_error line rest s _ hstep]
  · intro line hb hm hlen
    have hnot : ¬(2 ≤ (splitPy " = " (pyStrip line)).length) := by omega
    simp only [stepLine, hb, hm, Bool.false_eq_true, if_false, hnot]

/-- Witness for C10: a blank line inside a section aborts the parse;
the same blank line at top level leaves the state untouched. -/
theorem section_unrecognized_line_witness :
    parse_structured_file ["OBJECT = K", ""] = .error .malformedValueLine ∧
    stepLine initState "" = .ok initState := by
  constructor
  · exact (section_unrecognized_line_fails_top_ignored ["OBJECT = K"]
      { doc := [], building_obj := true, obj_token := "OBJECT", obj_key := "K",
        current_obj := [], in_multiline := false, multiline_end_token := ' ',
        multiline_key := "", multiline_value := "" }).1 "" [] rfl rfl rfl rfl (by decide)
  · exact (section_unrecognized_line_fails_top_ignored [] initState).2 "" rfl rfl (by decide)

/-! ## Claim C6 -/

/-- Overwriting lookup: an assignment is immediately visible. -/
theorem getKey_setKey_self {α : Type} (d : List (String × α)) (k : String) (v : α) :
    getKey (setKey d k v) k = some v := by
  induction d with
  | nil => simp [setKey, getKey]
  | cons kv rest ih =>
    obtain ⟨k0, w⟩ := kv
    by_cases h : k0 = k <;> simp [setKey, getKey, h, ih]

/-- The section-close step in full generality: the finished inner
mapping is committed under the section's output key with the
duplicate-key case analysis of lines 71–79. -/
theorem stepLine_section_close (s : PState) (line : String)
    (hb : s.building_obj = true) (hm : s.in_multiline = false)
    (hend : startsWithPy ("END_" ++ s.obj_token) (pyStrip line) = true) :
    stepLine s line = .ok { s with
      doc := match getKey s.doc s.obj_key with
        | some (.list l) => setKey s.doc s.obj_key (.list (l ++ [.obj s.current_obj]))
        | some v => setKey s.doc s.obj_key (.list [v, .obj s.current_obj])
        | none => setKey s.doc s.obj_key (.obj s.current_obj),
      building_obj := false, obj_token := "", current_obj := [] } := by
  simp only [stepLine, hb, hm, hend, if_true, Bool.false_eq_true, if_false]

/-- C6: when a grouping section closes under output key `K`: if `K`
is absent the section mapping is stored directly; if `K` holds a
non-list value that value is promoted into a two-element list, the new
section mapping second (so two sibling sections sharing an output key
yield a list of exactly two entries in file order — concrete final
conjunct); if `K` already holds a list the new mapping is appended;
and a flat scalar collision at top level is never promoted — the new
scalar simply overwrites (fourth conjunct). -/
theorem section_close_duplicate_key_promotion :
    (∀ s line, s.building_obj = true → s.in_multiline = false →
      startsWithPy ("END_" ++ s.obj_token) (pyStrip line) = true →
      getKey s.doc s.obj_key = none →
      stepLine s line = .ok { s with
        doc := setKey s.doc s.obj_key (.obj s.current_obj),
        building_obj := false, obj_token := "", current_obj := [] }) ∧
    (∀ s line v, s.building_obj = true → s.in_multiline = false →
      startsWithPy ("END_" ++ s.obj_token) (pyStrip line) = true →
      getKey s.doc s.obj_key = some v → (∀ l, v ≠ .list l) →
      stepLine s line = .ok { s with
        doc := setKey s.doc s.obj_key (.list [v, .obj s.current_obj]),
        building_obj := false, obj_token := "", current_obj := [] }) ∧
    (∀ s line l, s.building_obj = true → s.in_multiline = false →
      startsWithPy ("END_" ++ s.obj_token) (pyStrip line) = true →
      getKey s.doc s.obj_key = some (.list l) →
      stepLine s line = .ok { s with
        doc := setKey s.doc s.obj_key (.list (l ++ [.obj s.current_obj])),
        building_obj := false, obj_token := "", current_obj := [] }) ∧
    (∀ s line k v1 w, ∀ others : List String,
      s.building_obj = false → s.in_multiline = false →
      splitPy " = " (pyStrip line) = k :: v1 :: others →
      pyStrip k ∉ OBJ_TOKENS → pyStrip v1 ≠ "" →
      specMultilineEnd (pyStrip v1) = none →
      getKey s.doc (pyStrip k) = some w →
      stepLine s line =
        .ok { s with doc := setKey s.doc (pyStrip k) (.str (stripNL (pyStrip v1))) } ∧
      getKey (setKey s.doc (pyStrip k) (.str (stripNL (pyStrip v1)))) (pyStrip k) =
        some (.str (stripNL (pyStrip v1)))) ∧
    parse_structured_file
      ["OBJECT = TBL", "A = 1", "END_OBJECT", "OBJECT = TBL", "B = 2", "END_OBJECT"] =
      .ok [("TBL", .list [.obj [("A", "1")], .obj [("B", "2")]])] := by
  refine ⟨?_, ?_, ?_, ?_, rfl⟩
  · intro s line hb hm hend hocc
    rw [stepLine_section_close s line hb hm hend, hocc]
  · intro s line v hb hm hend hocc hv
    rw [stepLine_section_close s line hb hm hend, hocc]
    cases v with
    | str x => rfl
    | obj o => rfl
    | list l => exact absurd rfl (hv l)
  · intro s line l hb hm hend hocc
    rw [stepLine_section_close s line hb hm hend, hocc]
  · intro s line k v1 w others hb hm hsplit hkey hne hnm _hocc
    exact ⟨stepLine_top_plain s line k v1 others hb hm hsplit hkey hne hnm,
      getKey_setKey_self s.doc (pyStrip k) _⟩

/-- Witness for C6: closing a section under a key that already holds
a scalar promotes the scalar and the new section mapping into a
two-element list. -/
theorem section_close_duplicate_key_promotion_witness :
    stepLine
      { doc := [("K", Value.str "x")], building_obj := true, obj_token := "OBJECT",
        obj_key := "K", current_obj := [("A", "1")], in_multiline := false,
        multiline_end_token := ' ', multiline_key := "", multiline_value := "" }
      "END_OBJECT" =
    .ok
      { doc := [("K", Value.list [.str "x", .obj [("A", "1")]])], building_obj := false,
        obj_token := "", obj_key := "K", current_obj := [], in_multiline := false,
        multiline_end_token := ' ', multiline_key := "", multiline_value := "" } :=
  section_close_duplicate_key_promotion.2.1
    { doc := [("K", Value.str "x")], building_obj := true, obj_token := "OBJECT",
      obj_key := "K", current_obj := [("A", "1")], in_multiline := false,
      multiline_end_token := ' ', multiline_key := "", multiline_value := "" }
    "END_OBJECT" (Value.str "x") rfl rfl rfl rfl (fun _l h => nomatch h)

/-! ## Claim C5 -/

/-- The head surviving a `dropWhile` fails the predicate. -/
theorem head?_dropWhile_false {p : Char → Bool} (l : List Char) (c : Char)
    (h : (l.dropWhile p).head? = some c) : p c = false := by
  induction l with
  | nil => simp [List.dropWhile] at h
  | cons a t ih =>
    by_cases hp : p a
    · rw [List.dropWhile_cons_of_pos hp] at h; exact ih h
    · rw [List.dropWhile_cons_of_neg hp] at h
      simp only [List.head?_cons, Option.some.injEq] at h
      subst h; simpa using hp

/-- `dropWhile` keeps the last element of a list it leaves non-empty. -/
theorem getLast?_dropWhile_some {p : Char → Bool} (l : List Char) (c : Char)
    (h : (l.dropWhile p).getLast? = some c) : l.getLast? = some c := by
  obtain ⟨t, ht⟩ := List.dropWhile_suffix (l := l) p
  rw [← ht]
  exact List.mem_getLast?_append_of_mem_getLast? h

/-- A list whose head fails the predicate is unchanged by `dropWhile`. -/
theorem dropWhile_eq_self_of_head? {q : Char → Bool} (l : List Char)
    (h : ∀ c, l.head? = some c → q c = false) : l.dropWhile q = l := by
  cases l with
  | nil => rfl
  | cons a t => exact List.dropWhile_cons_of_neg (by simp [h a rfl])

/-- Stripping newlines from an already whitespace-stripped string is a
no-op (newline is itself Python whitespace). -/
theorem stripNL_pyStrip (s : String) : stripNL (pyStrip s) = pyStrip s := by
  unfold stripNL pyStrip
  have hq : ∀ c : Char, (c == '\n') = true → isPySpace c = true := by
    intro c hc
    have : c = '\n' := by simpa using hc
    subst this; rfl
  have hqf : ∀ c : Char, isPySpace c = false → (c == '\n') = false := by
    intro c hc
    cases hqc : (c == '\n') with
    | false => rfl
    | true => rw [hq c hqc] at hc; cases hc
  set A1 := s.data.dropWhile isPySpace with hA1
  set A2 := A1.reverse.dropWhile isPySpace with hA2
  have h1 : A2.reverse.dropWhile (· == '\n') = A2.reverse := by
    apply dropWhile_eq_self_of_head?
    intro c hc
    rw [List.head?_reverse] at hc
    have hlast : A1.reverse.getLast? = some c := getLast?_dropWhile_some _ _ hc
    rw [List.getLast?_reverse] at hlast
    exact hqf c (head?_dropWhile_false _ _ hlast)
  have h2 : A2.dropWhile (· == '\n') = A2 := by
    apply dropWhile_eq_self_of_head?
    intro c hc
    exact hqf c (head?_dropWhile_false _ _ hc)
  simp only [h1, List.reverse_reverse, h2]

/-- A non-empty stripped line has a last character, which the closing
test of the multiline accumulator inspects. -/
theorem multiline_last_char (line : String) (hcl : pyStrip line ≠ "") :
    ∃ c, (stripNL (pyStrip line)).data.getLast? = some c := by
  rw [stripNL_pyStrip]
  have hd : (pyStrip line).data ≠ [] := fun h => hcl (eq_empty_of_data_eq_nil h)
  cases h : (pyStrip line).data.getLast? with
  | some c => exact ⟨c, rfl⟩
  | none => exact absurd (List.getLast?_eq_none_iff.mp h) hd

/-- Mid-multiline, a line that does not pass the closing test is
appended (stripped) to the accumulated value, whichever scope the
accumulation feeds. -/
theorem stepLine_multiline_append (s : PState) (line : String)
    (hm : s.in_multiline = true)
    (hnc : ¬(pyStrip line ≠ "" ∧
      (stripNL (pyStrip line)).data.getLast? = some s.multiline_end_token)) :
    stepLine s line = .ok { s with multiline_value := s.multiline_value ++ pyStrip line } := by
  by_cases hcl : pyStrip line = ""
  · cases hb : s.building_obj <;>
      simp only [stepLine, hb, hm, hcl, Bool.false_eq_true, if_false, if_true,
        ne_eq, not_true_eq_false, ite_false]
  · obtain ⟨c, hc⟩ := multiline_last_char line hcl
    have hcne : ¬(s.multiline_end_token = c) := by
      intro h; exact hnc ⟨hcl, by rw [hc, h]⟩
    cases hb : s.building_obj <;>
      simp only [stepLine, hb, hm, Bool.false_eq_true, if_false, if_true, ne_eq,
        hcl, not_false_eq_true, ite_true, hc, hcne, ite_false]

/-- Mid-multiline at top level, a line passing the closing test closes
the accumulation and commits the concatenated value to the top-level
document under the remembered key. -/
theorem stepLine_multiline_close_top (s : PState) (line : String)
    (hb : s.building_obj = false) (hm : s.in_multiline = true)
    (hcl : pyStrip line ≠ "")
    (hc : (stripNL (pyStrip line)).data.getLast? = some s.multiline_end_token) :
    stepLine s line = .ok { s with
      in_multiline := false,
      multiline_value := s.multiline_value ++ pyStrip line,
      doc := setKey s.doc s.multiline_key (.str (s.multiline_value ++ pyStrip line)) } := by
  simp only [stepLine, hb, hm, Bool.false_eq_true, if_false, if_true, ne_eq,
    hcl, not_false_eq_true, ite_true, hc]

/-- A top-level key/value line whose value starts a multiline (per the
spec-side rule `specMultilineEnd`) switches the parser into multiline
accumulation seeded with the stripped value. -/
theorem stepLine_top_start_multiline (s : PState) (line k v1 : String)
    (others : List String) (e : Char)
    (hb : s.building_obj = false) (hm : s.in_multiline = false)
    (hsplit : splitPy " = " (pyStrip line) = k :: v1 :: others)
    (hkey : pyStrip k ∉ OBJ_TOKENS)
    (hstart : specMultilineEnd (pyStrip v1) = some e) :
    stepLine s line = .ok { s with
      in_multiline := true,
      multiline_end_token := e,
      multiline_key := pyStrip k,
      multiline_value := pyStrip v1 } := by
  have hd : (pyStrip v1).data ≠ [] := by
    intro h
    rw [specMultilineEnd, h] at hstart
    exact nomatch hstart
  have hft : findMultilineToken (pyStrip v1) = .ok (some e) :=
    (findMultilineToken_eq_spec _ hd).trans (by rw [hstart])
  simp only [stepLine, hb, hm, hsplit, Bool.false_eq_true, if_false,
    List.length_cons, List.get?, List.headD, Option.getD_some]
  rw [if_pos (by omega : 2 ≤ others.length + 1 + 1), if_neg hkey, hft]

/-- The concatenation of the stripped lines of a list, in order, with
no separator inserted. -/
def concatStrips : List String → String
  | [] => ""
  | b :: rest => pyStrip b ++ concatStrips rest

/-- Folding the parser over body lines that never pass the closing
test appends all their stripped contents to the multiline value. -/
theorem foldlM_multiline_body (body : List String) (s : PState)
    (hm : s.in_multiline = true)
    (hbody : ∀ b ∈ body, ¬(pyStrip b ≠ "" ∧
      (stripNL (pyStrip b)).data.getLast? = some s.multiline_end_token)) :
    body.foldlM stepLine s =
      .ok { s with multiline_value := s.multiline_value ++ concatStrips body } := by
  induction body generalizing s with
  | nil =>
    show Except.ok s = _
    rw [concatStrips, String.append_empty]
  | cons b rest ih =>
    have hstep := stepLine_multiline_append s b hm (hbody b (List.mem_cons_self _ _))
    have hrec := ih { s with multiline_value := s.multiline_value ++ pyStrip b } hm
      (fun x hx => hbody x (List.mem_cons_of_mem _ hx))
    simp only [List.foldlM, hstep, Bind.bind, Except.bind, hrec, concatStrips,
      String.append_assoc]

/-- C5: a top-level value that starts a multiline (first non-blank
character an opening delimiter with no matching close on the same
line, quote pair checked before parenthesis pair — `specMultilineEnd`)
accumulates all following lines until the first whose last non-blank
character is the closing delimiter, and parse commits under the key
the concatenation of all the stripped lines — opening value, body
lines and terminating line, in original order, with no separator and
both delimiters retained. -/
theorem parse_multiline_value_concatenation
    (line1 closeLine : String) (body : List String)
    (k v1 : String) (others : List String) (e : Char)
    (hsplit : splitPy " = " (pyStrip line1) = k :: v1 :: others)
    (hkey : pyStrip k ∉ OBJ_TOKENS)
    (hstart : specMultilineEnd (pyStrip v1) = some e)
    (hbody : ∀ b ∈ body, ¬(pyStrip b ≠ "" ∧
      (stripNL (pyStrip b)).data.getLast? = some e))
    (hcl : pyStrip closeLine ≠ "")
    (hc : (stripNL (pyStrip closeLine)).data.getLast? = some e) :
    parse_structured_file (line1 :: (body ++ [closeLine])) =
      .ok [(pyStrip k,
        .str ((pyStrip v1 ++ concatStrips body) ++ pyStrip closeLine))] := by
  have h1 := stepLine_top_start_multiline initState line1 k v1 others e rfl rfl
    hsplit hkey hstart
  unfold parse_structured_file
  rw [List.foldlM_cons, h1]
  show (match (body ++ [closeLine]).foldlM stepLine _ with
    | Except.error e => (Except.error e : Except ParseError (List (String × Value)))
    | Except.ok s => Except.ok s.doc) = _
  rw [foldlM_stepLine_append, foldlM_multiline_body body _ rfl hbody]
  show (match [closeLine].foldlM stepLine _ with
    | Except.error e => (Except.error e : Except ParseError (List (String × Value)))
    | Except.ok s => Except.ok s.doc) = _
  rw [List.foldlM_cons, stepLine_multiline_close_top _ closeLine rfl rfl hcl hc]
  rfl

/-- Witness for C5: `DESC = "hello` / `mid` / `end"` parses to the
single key `DESC` holding `"hellomidend"` (both quotes retained). -/
theorem parse_multiline_value_concatenation_witness :
    parse_structured_file ["DESC = \"hello", "mid", "end\""] =
      .ok [("DESC", Value.str "\"hellomidend\"")] := by
  have h := parse_multiline_value_concatenation "DESC = \"hello" "end\"" ["mid"]
    "DESC" "\"hello" [] '"' (by decide) (by decide) (by decide) (by decide)
    (by decide) (by decide)
  exact h.trans (by rfl)

/-! ## Claim C9 -/

/-- Python indexing with a non-negative in-range index is plain list
access (no negative wrap-around is involved). -/
theorem pyIndex_nonneg {α : Type} (l : List α) (n : Nat) (h : n < l.length) :
    pyIndex l (n : Int) = some (l.get ⟨n, h⟩) := by
  unfold pyIndex
  have h0 : ¬((n : Int) < 0) := by omega
  simp only [h0, if_false]
  rw [dif_pos ⟨by omega, by omega⟩]
  simp

/-- C9: the formatted value of a column tuple `(number, name, type)`
on a data row is read from the cell at the declared 1-indexed column
number minus one (second conjunct); a cell stripping to `UNK` yields
the explicit no-value marker with no conversion attempted, any other
cell is coerced to the declared type (first conjunct); and on the
spec's concrete example row `12.5, 3, UNK` with types
`[float, int, float]` the output is `[12.5, 3, None]` (third
conjunct; `pFloat 125 10` is the decimal 12.5). -/
theorem extract_col_value_unk_and_coerce :
    (∀ (row : List String) (t : ColInfo) (cell : String),
      pyIndex row (t.num - 1) = some cell →
      extract_formatted_col_value row t =
        if pyStrip cell = "UNK" then .ok .pNone else coerceValue t.ty (pyStrip cell)) ∧
    (∀ (row : List String) (t : ColInfo) (n : Nat) (h : n < row.length),
      t.num = (n : Int) + 1 →
      pyIndex row (t.num - 1) = some (row.get ⟨n, h⟩)) ∧
    ([⟨1, "A", .tFloat⟩, ⟨2, "B", .tInt⟩, ⟨3, "C", .tFloat⟩].map
      (extract_formatted_col_value ["12.5", "3", "UNK"]) =
      [.ok (.pFloat 125 10), .ok (.pInt 3), .ok .pNone]) := by
  refine ⟨?_, ?_, rfl⟩
  · intro row t cell hidx
    unfold extract_formatted_col_value
    rw [hidx]
  · intro row t n h hnum
    have : t.num - 1 = (n : Int) := by omega
    rw [this]
    exact pyIndex_nonneg row n h

/-- Witness for C9: in a two-cell row the second column (declared
number 2) is read from index 1 and its `UNK` content formats to the
no-value marker. -/
theorem extract_col_value_unk_and_coerce_witness :
    extract_formatted_col_value ["7.5", "UNK"] ⟨2, "X", PyType.tFloat⟩ = .ok .pNone := by
  have h := extract_col_value_unk_and_coerce.1 ["7.5", "UNK"] ⟨2, "X", PyType.tFloat⟩
    "UNK" rfl
  exact h.trans (by rfl)

/-! ## Claims C7 and C8: the extractor -/

mutual
/-- The leaf names selected by one target element (spec-side: the
flat keys the extractor's output is expected to consist of). -/
def leafNamesT : Target → List String
  | .plain k => [k]
  | .nested ps => leafNamesP ps
/-- The leaf names selected by the entries of a dict-shaped target. -/
def leafNamesP : TargetPairs → List String
  | .nil => []
  | .cons _ sub rest => leafNamesL sub ++ leafNamesP rest
/-- The leaf names selected by a target spec, in selection order. -/
def leafNamesL : TargetList → List String
  | .nil => []
  | .cons t rest => leafNamesT t ++ leafNamesL rest
end

/-- Lookup after an assignment. -/
theorem getKey_setKey {α : Type} (d : List (String × α)) (k k2 : String) (v : α) :
    getKey (setKey d k v) k2 = if k = k2 then some v else getKey d k2 := by
  induction d with
  | nil => rfl
  | cons kv rest ih =>
    obtain ⟨k0, w⟩ := kv
    by_cases h0 : k0 = k
    · subst h0
      by_cases h2 : k0 = k2 <;> simp [setKey, getKey, h2]
    · by_cases h2 : k0 = k2
      · subst h2
        simp [setKey, getKey, h0, ih]
        rw [if_neg (fun h => h0 h.symm)]
      · simp [setKey, getKey, h0, h2, ih]

/-- Lookup of the *last* entry for a key (merging with `mergeDict`
applies entries left to right, so the last one wins). -/
def lookupLast {α : Type} : List (String × α) → String → Option α
  | [], _ => none
  | (k0, v) :: rest, k =>
    match lookupLast rest k with
    | some w => some w
    | none => if k0 = k then some v else none

/-- Merging then looking up: the right dict's last entry for the key
wins, otherwise the left dict is consulted. -/
theorem getKey_mergeDict {α : Type} (b a : List (String × α)) (k : String) :
    getKey (mergeDict a b) k =
      match lookupLast b k with
      | some v => some v
      | none => getKey a k := by
  induction b generalizing a with
  | nil => rfl
  | cons kv b2 ih =>
    obtain ⟨k0, v0⟩ := kv
    show getKey (mergeDict (setKey a k0 v0) b2) k = _
    rw [ih (setKey a k0 v0)]
    cases hl : lookupLast b2 k with
    | some w => simp [lookupLast, hl]
    | none =>
      rw [getKey_setKey]
      by_cases h0 : k0 = k <;> simp [lookupLast, hl, h0]

/-- The two lookups agree on whether a key is present at all. -/
theorem lookupLast_isSome {α : Type} (b : List (String × α)) (k : String) :
    (lookupLast b k).isSome = (getKey b k).isSome := by
  induction b with
  | nil => rfl
  | cons kv rest ih =>
    obtain ⟨k0, v0⟩ := kv
    cases hl : lookupLast rest k with
    | some w =>
      rw [hl] at ih
      by_cases h0 : k0 = k <;> simp [lookupLast, getKey, hl, h0, ← ih]
    | none =>
      rw [hl] at ih
      by_cases h0 : k0 = k <;> simp [lookupLast, getKey, hl, h0, ← ih]

mutual
/-- Which keys an extraction result holds: exactly the leaf names of
the spec plus whatever the accumulator already held. -/
theorem keyset_go (doc : DocDict) : ∀ (ts : TargetList)
    (acc res : List (String × DocValue)),
    get_lbl_info_go doc acc ts = .ok res → ∀ k : String,
    ((getKey res k).isSome = true ↔
      (k ∈ leafNamesL ts ∨ (getKey acc k).isSome = true))
  | .nil, acc, res, h, k => by
    cases h
    simp [leafNamesL]
  | .cons (.plain k0) rest, acc, res, h, k => by
    rw [get_lbl_info_go] at h
    cases hk : doc.getKey k0 with
    | none => rw [hk] at h; exact nomatch h
    | some v =>
      simp only [hk] at h
      have ih := keyset_go doc rest (setKey acc k0 v) res h k
      rw [getKey_setKey] at ih
      by_cases h0 : k0 = k
      · subst h0; simp [leafNamesL, leafNamesT] at ih ⊢; simp [ih]
      · have h0' : ¬(k = k0) := fun h => h0 h.symm
        simp [h0] at ih
        simp [leafNamesL, leafNamesT, h0', ih]
  | .cons (.nested ps) rest, acc, res, h, k => by
    rw [get_lbl_info_go] at h
    cases hp : get_lbl_info_pairs doc acc ps with
    | error e => rw [hp] at h; exact nomatch h
    | ok acc2 =>
      simp only [hp] at h
      have ih1 := keyset_pairs doc ps acc acc2 hp k
      have ih2 := keyset_go doc rest acc2 res h k
      simp only [leafNamesL, leafNamesT, List.mem_append]
      rw [ih2, ih1]
      tauto

/-- Which keys processing the entries of one dict-shaped target adds. -/
theorem keyset_pairs (doc : DocDict) : ∀ (ps : TargetPairs)
    (acc res : List (String × DocValue)),
    get_lbl_info_pairs doc acc ps = .ok res → ∀ k : String,
    ((getKey res k).isSome = true ↔
      (k ∈ leafNamesP ps ∨ (getKey acc k).isSome = true))
  | .nil, acc, res, h, k => by
    cases h
    simp [leafNamesP]
  | .cons k0 sub rest, acc, res, h, k => by
    rw [get_lbl_info_pairs] at h
    cases hk : doc.getKey k0 with
    | none => rw [hk] at h; exact nomatch h
    | some v =>
      cases v with
      | leaf s => rw [hk] at h; exact nomatch h
      | node d =>
        simp only [hk] at h
        cases hs : get_lbl_info_go d [] sub with
        | error e => rw [hs] at h; exact nomatch h
        | ok subRes =>
          simp only [hs] at h
          have ihsub := keyset_go d sub [] subRes hs k
          have ih := keyset_pairs doc rest (mergeDict acc subRes) res h k
          rw [getKey_mergeDict] at ih
          simp only [getKey, Option.isSome_none, Bool.false_eq_true, or_false] at ihsub
          simp only [leafNamesP, List.mem_append]
          cases hl : lookupLast subRes k with
          | some w =>
            rw [hl] at ih
            have hks : (getKey subRes k).isSome = true := by
              rw [← lookupLast_isSome, hl]; rfl
            simp only [Option.isSome_some] at ih
            rw [ih]
            simp [ihsub.mp hks]
          | none =>
            rw [hl] at ih
            have hks : (getKey subRes k).isSome = false := by
              rw [← lookupLast_isSome, hl]; rfl
            have : ¬(k ∈ leafNamesL sub) := fun hmem => by
              rw [ihsub.mpr hmem] at hks; cases hks
            rw [ih]
            tauto
end

mutual
/-- Two extractions over the same spec from different accumulators
agree on every key the spec selects; keys the spec does not select
keep their accumulator values. -/
theorem pointwise_go (doc : DocDict) : ∀ (ts : TargetList)
    (a a2 r r2 : List (String × DocValue)),
    get_lbl_info_go doc a ts = .ok r → get_lbl_info_go doc a2 ts = .ok r2 →
    ∀ k : String,
    (getKey r k = getKey r2 k ∨
      (¬(k ∈ leafNamesL ts) ∧ getKey r k = getKey a k ∧ getKey r2 k = getKey a2 k))
  | .nil, a, a2, r, r2, h, h2, k => by
    cases h; cases h2
    exact Or.inr ⟨by simp [leafNamesL], rfl, rfl⟩
  | .cons (.plain k0) rest, a, a2, r, r2, h, h2, k => by
    rw [get_lbl_info_go] at h h2
    cases hk : doc.getKey k0 with
    | none => rw [hk] at h; exact nomatch h
    | some v =>
      simp only [hk] at h h2
      have ih := pointwise_go doc rest (setKey a k0 v) (setKey a2 k0 v) r r2 h h2 k
      rcases ih with hl | ⟨hmem, e1, e2⟩
      · exact Or.inl hl
      · rw [getKey_setKey] at e1 e2
        by_cases h0 : k0 = k
        · rw [if_pos h0] at e1 e2
          exact Or.inl (e1.trans e2.symm)
        · rw [if_neg h0] at e1 e2
          refine Or.inr ⟨?_, e1, e2⟩
          have h0' : ¬(k = k0) := fun hh => h0 hh.symm
          simp [leafNamesL, leafNamesT, hmem, h0']
  | .cons (.nested ps) rest, a, a2, r, r2, h, h2, k => by
    rw [get_lbl_info_go] at h h2
    cases hp : get_lbl_info_pairs doc a ps with
    | error e => rw [hp] at h; exact nomatch h
    | ok b =>
      cases hp2 : get_lbl_info_pairs doc a2 ps with
      | error e => rw [hp2] at h2; exact nomatch h2
      | ok b2 =>
        simp only [hp] at h
        simp only [hp2] at h2
        have ihp := pointwise_pairs doc ps a a2 b b2 hp hp2 k
        have ih := pointwise_go doc rest b b2 r r2 h h2 k
        rcases ih with hl | ⟨hmem, e1, e2⟩
        · exact Or.inl hl
        · rcases ihp with hpl | ⟨hpmem, f1, f2⟩
          · exact Or.inl (by rw [e1, e2, hpl])
          · refine Or.inr ⟨?_, e1.trans f1, e2.trans f2⟩
            simp [leafNamesL, leafNamesT, hmem, hpmem]

/-- The `pointwise_go` property for the entries of one dict-shaped
target. -/
theorem pointwise_pairs (doc : DocDict) : ∀ (ps : TargetPairs)
    (a a2 r r2 : List (String × DocValue)),
    get_lbl_info_pairs doc a ps = .ok r → get_lbl_info_pairs doc a2 ps = .ok r2 →
    ∀ k : String,
    (getKey r k = getKey r2 k ∨
      (¬(k ∈ leafNamesP ps) ∧ getKey r k = getKey a k ∧ getKey r2 k = getKey a2 k))
  | .nil, a, a2, r, r2, h, h2, k => by
    cases h; cases h2
    exact Or.inr ⟨by simp [leafNamesP], rfl, rfl⟩
  | .cons k0 sub rest, a, a2, r, r2, h, h2, k => by
    rw [get_lbl_info_pairs] at h h2
    cases hk : doc.getKey k0 with
    | none => rw [hk] at h; exact nomatch h
    | some v =>
      cases v with
      | leaf s => rw [hk] at h; exact nomatch h
      | node d =>
        simp only [hk] at h h2
        cases hs : get_lbl_info_go d [] sub with
        | error e => rw [hs] at h; exact nomatch h
        | ok subRes =>
          simp only [hs] at h h2
          have ih := pointwise_pairs doc rest (mergeDict a subRes)
            (mergeDict a2 subRes) r r2 h h2 k
          rcases ih with hl | ⟨hmem, e1, e2⟩
          · exact Or.inl hl
          · rw [getKey_mergeDict] at e1 e2
            cases hl2 : lookupLast subRes k with
            | some w =>
              rw [hl2] at e1 e2
              exact Or.inl (e1.trans e2.symm)
            | none =>
              rw [hl2] at e1 e2
              refine Or.inr ⟨?_, e1, e2⟩
              have hks : (getKey subRes k).isSome = false := by
                rw [← lookupLast_isSome, hl2]; rfl
              have hsub : ¬(k ∈ leafNamesL sub) := by
                intro hmem2
                have hw := (keyset_go d sub [] subRes hs k).mpr (Or.inl hmem2)
                simp [hw] at hks
              simp [leafNamesP, hsub, hmem]
end

/-- Processing an appended spec processes the parts in order,
threading the accumulator. -/
theorem go_append (doc : DocDict) : ∀ (ts1 ts2 : TargetList)
    (acc : List (String × DocValue)),
    get_lbl_info_go doc acc (ts1 ++ ts2) =
      (match get_lbl_info_go doc acc ts1 with
       | .error e => .error e
       | .ok acc1 => get_lbl_info_go doc acc1 ts2)
  | .nil, _ts2, _acc => rfl
  | .cons (.plain k0) rest, ts2, acc => by
    show get_lbl_info_go doc acc (.cons (.plain k0) (rest ++ ts2)) = _
    cases hk : doc.getKey k0 with
    | none => simp only [get_lbl_info_go, hk]
    | some v =>
      simp only [get_lbl_info_go, hk]
      exact go_append doc rest ts2 (setKey acc k0 v)
  | .cons (.nested ps) rest, ts2, acc => by
    show get_lbl_info_go doc acc (.cons (.nested ps) (rest ++ ts2)) = _
    cases hp : get_lbl_info_pairs doc acc ps with
    | error e => simp only [get_lbl_info_go, hp]
    | ok acc2 =>
      simp only [get_lbl_info_go, hp]
      exact go_append doc rest ts2 acc2

/-- Leaf names distribute over spec concatenation. -/
theorem leafNamesL_append : ∀ ts1 ts2 : TargetList,
    leafNamesL (ts1 ++ ts2) = leafNamesL ts1 ++ leafNamesL ts2
  | .nil, _ts2 => rfl
  | .cons t rest, ts2 => by
    show leafNamesL (.cons t (rest ++ ts2)) = _
    rw [leafNamesL, leafNamesL_append rest ts2]
    show _ = leafNamesT t ++ leafNamesL rest ++ leafNamesL ts2
    rw [List.append_assoc]

/-- C7: a successful extraction over `ts1 ++ ts2` returns a flat
mapping whose key set is exactly the leaf names named anywhere in the
spec, at any nesting depth (first conjunct), and on key collision
later spec entries win: every key selected by the later part `ts2`
carries the value the extraction of `ts2` alone produces (second
conjunct). -/
theorem extract_flat_exact_leaves_later_wins (doc : DocDict) (ts1 ts2 : TargetList)
    (res r2 : List (String × DocValue))
    (h : get_lbl_info doc (ts1 ++ ts2) = .ok res)
    (h2 : get_lbl_info doc ts2 = .ok r2) :
    (∀ k, (getKey res k).isSome = true ↔
      (k ∈ leafNamesL ts1 ∨ k ∈ leafNamesL ts2)) ∧
    (∀ k, k ∈ leafNamesL ts2 → getKey res k = getKey r2 k) := by
  have hgo : get_lbl_info_go doc [] (ts1 ++ ts2) = .ok res := h
  have hgo2 : get_lbl_info_go doc [] ts2 = .ok r2 := h2
  constructor
  · intro k
    rw [keyset_go doc (ts1 ++ ts2) [] res hgo k, leafNamesL_append, List.mem_append]
    simp [getKey]
  · intro k hk
    rw [go_append] at hgo
    cases h1 : get_lbl_info_go doc [] ts1 with
    | error e => rw [h1] at hgo; exact nomatch hgo
    | ok acc1 =>
      simp only [h1] at hgo
      rcases pointwise_go doc ts2 acc1 [] res r2 hgo hgo2 k with hl | ⟨hmem, _, _⟩
      · exact hl
      · exact absurd hk hmem

/-- Witness for C7 on a concrete document and spec: the result of
extracting `[A, {G: [B]}, A]` holds key `B` (a leaf nested under the
grouping section `G`), and the value of the colliding key `A` agrees
with the extraction of the later spec part alone. -/
theorem extract_flat_exact_leaves_later_wins_witness :
    (getKey [("A", DocValue.leaf "1"), ("B", DocValue.leaf "2")] "B").isSome = true ∧
    getKey [("A", DocValue.leaf "1"), ("B", DocValue.leaf "2")] "A" =
      getKey [("B", DocValue.leaf "2"), ("A", DocValue.leaf "1")] "A" := by
  have h := extract_flat_exact_leaves_later_wins
    (.cons "A" (.leaf "1") (.cons "G" (.node (.cons "B" (.leaf "2") .nil)) .nil))
    (.cons (.plain "A") .nil)
    (.cons (.nested (.cons "G" (.cons (.plain "B") .nil) .nil))
      (.cons (.plain "A") .nil))
    [("A", DocValue.leaf "1"), ("B", DocValue.leaf "2")]
    [("B", DocValue.leaf "2"), ("A", DocValue.leaf "1")]
    rfl rfl
  exact ⟨(h.1 "B").mpr (Or.inr (by simp [leafNamesL, leafNamesT, leafNamesP])),
    h.2 "A" (by simp [leafNamesL, leafNamesT, leafNamesP])⟩

/-- C8: when a target names a key absent from the document at the
addressed level — as a plain leaf target (first conjunct) or as the
key of a nested sub-spec (second conjunct) — the whole extraction
fails with the KeyNotFound condition; nothing already extracted is
returned. -/
theorem extract_missing_key_keyNotFound (doc : DocDict) (ts1 ts2 : TargetList)
    (acc1 : List (String × DocValue)) (k : String)
    (h1 : get_lbl_info doc ts1 = .ok acc1)
    (hk : doc.getKey k = none) :
    get_lbl_info doc (ts1 ++ .cons (.plain k) ts2) = .error .keyNotFound ∧
    (∀ (sub : TargetList) (ps : TargetPairs),
      get_lbl_info doc (ts1 ++ .cons (.nested (.cons k sub ps)) ts2) =
        .error .keyNotFound) := by
  have h1g : get_lbl_info_go doc [] ts1 = .ok acc1 := h1
  constructor
  · show get_lbl_info_go doc [] (ts1 ++ _) = _
    rw [go_append]
    simp only [h1g, get_lbl_info_go, hk]
  · intro sub ps
    show get_lbl_info_go doc [] (ts1 ++ _) = _
    rw [go_append]
    simp only [h1g, get_lbl_info_go, get_lbl_info_pairs, hk]

/-- Witness for C8: requesting the missing key `Z` of a one-key
document fails with KeyNotFound, both as a plain target and as the
key of a nested sub-spec. -/
theorem extract_missing_key_keyNotFound_witness :
    get_lbl_info (.cons "A" (.leaf "1") .nil)
      (TargetList.nil ++ .cons (.plain "Z") .nil) = .error .keyNotFound ∧
    get_lbl_info (.cons "A" (.leaf "1") .nil)
      (TargetList.nil ++ .cons (.nested (.cons "Z" (.cons (.plain "B") .nil) .nil)) .nil) =
      .error .keyNotFound := by
  have h := extract_missing_key_keyNotFound (.cons "A" (.leaf "1") .nil)
    .nil .nil [] "Z" rfl rfl
  exact ⟨h.1, h.2 (.cons (.plain "B") .nil) .nil⟩

end RoverData
